import Mathlib

/-!
Shallow embedding of the template-compiler compilation-unit assembler
(`compiler/compile.go`) and verification of the specification claims.

Go maps are modelled as insertion-ordered association lists; where the Go
code ranges over a map (whose iteration order is unspecified), the embedding
is parameterized by the delivery order.  External collaborators (the
filesystem glob, the template parser, the node converter, the registry) are
modelled at their specified boundary.
-/

namespace TC

/-! ### Decimal rendering (Go fmt %v of a non-negative integer) -/

/-- Little-endian decimal digits of a natural number, with fuel for
structural recursion; with fuel at least n this is the usual digit list. -/
def digitsLEAux : Nat → Nat → List Nat
  | 0, n => [n]
  | fuel + 1, n => if n < 10 then [n] else (n % 10) :: digitsLEAux fuel (n / 10)

/-- Little-endian decimal digits of a natural number. -/
def digitsLE (n : Nat) : List Nat := digitsLEAux n n

/-- Decimal rendering of a natural number; models what Go fmt verbs print
for a non-negative integer counter. -/
def natRepr (n : Nat) : String := String.mk ((digitsLE n).reverse.map Nat.digitChar)

/-! ### Small string utilities used by the embedding -/

/-- Go filepath.Base: last element of a slash-separated path, after
stripping trailing slashes; empty path gives a dot, all-slash gives a slash. -/
def filepathBase (p : String) : String :=
  if p = "" then "." else
    let cs := (p.toList.reverse).dropWhile (fun c => c = '/')
    if cs = [] then "/" else String.mk (cs.takeWhile (fun c => c ≠ '/')).reverse

/-- Go fmt %q on the strings this compiler quotes: wrap in double quotes,
escaping backslashes and double quotes. -/
def goQuote (s : String) : String :=
  String.mk ('"' :: s.toList.foldr
    (fun c acc => if c = '"' ∨ c = '\\' then '\\' :: c :: acc else c :: acc) ['"'])

/-- Split a character list at every occurrence of a separator character;
models Go strings.Split with a one-character separator. -/
def splitOnChar (sep : Char) : List Char → List (List Char)
  | [] => [[]]
  | c :: cs =>
    match splitOnChar sep cs with
    | [] => [[c]]
    | h :: t => if c = sep then [] :: h :: t else (c :: h) :: t

/-- Uppercase the first character of a word (ASCII), as the snake-to-camel
pass does per underscore-separated word. -/
def capitalizeWord : List Char → List Char
  | [] => []
  | c :: cs => c.toUpper :: cs

/-- Modelled from the spec: the external snake-to-camel case-normalization
pass applied to generated function identifiers (the serenize/snaker
dependency) — split the name on underscores and capitalize each word. -/
def snakerSnakeToCamel (s : String) : String :=
  String.join ((splitOnChar '_' s.toList).map (fun w => String.mk (capitalizeWord w)))

/-- snakeToCamel from the source: run the snake-to-camel pass, then lower
the first character of the result. -/
def snakeToCamel (s : String) : String :=
  let s2 := snakerSnakeToCamel s
  match s2.toList with
  | [] => s2
  | c :: cs => String.mk (c.toLower :: cs)

/-- Boolean test that one character list starts with another. -/
def startsWith : List Char → List Char → Bool
  | [], _ => true
  | _ :: _, [] => false
  | a :: as, b :: bs => a = b && startsWith as bs

/-- Split a character list at every occurrence of a non-empty needle,
with fuel for structural recursion. -/
def splitBySubAux (needle : List Char) : Nat → List Char → List (List Char)
  | 0, l => [l]
  | fuel + 1, l =>
    match l with
    | [] => [[]]
    | c :: cs =>
      if startsWith needle (c :: cs) then
        [] :: splitBySubAux needle fuel ((c :: cs).drop needle.length)
      else
        match splitBySubAux needle fuel cs with
        | [] => [[c]]
        | h :: t => (c :: h) :: t

/-- Join pieces with a separator in between. -/
def joinWith (sep : List Char) : List (List Char) → List Char
  | [] => []
  | [h] => h
  | h :: t => h ++ sep ++ joinWith sep t

/-- Go strings.Replace with count -1: replace every occurrence of a
non-empty needle by the replacement (an empty needle leaves the string
unchanged here; the compiler only replaces dots). -/
def stringReplace (s needle repl : String) : String :=
  if needle.toList = [] then s
  else String.mk (joinWith repl.toList
    (splitBySubAux needle.toList (s.toList.length + 1) s.toList))

/-- replaceAll from the source: fold a replacement over every removal. -/
def replaceAll (old : String) (removals : List String) (replacement : String) : String :=
  removals.foldl (fun acc r => stringReplace acc r replacement) old

/-- cleanTplName from the source: make the template name identifier-safe by
replacing dots with underscores. -/
def cleanTplName (name : String) : String :=
  replaceAll name ["."] "_"

/-! ### The program state (struct CompiledTemplatesProgram) -/

/-- One Go ast.ImportSpec as the compiler uses it: the quoted import path
and the optional explicit alias (absent when the path's base name is used). -/
structure ImportSpec where
  pathValue : String
  name : Option String
deriving DecidableEq

/-- The CompiledTemplatesProgram struct: registry variable name, import
records, generated function declarations (rendered), the reserved
identifier list, and the literal-constant table.  The Go builtinTexts map
is modelled as an insertion-ordered association list from literal text to
constant name. -/
structure CompiledTemplatesProgram where
  varName : String
  imports : List ImportSpec
  funcs : List String
  idents : List String
  builtinTexts : List (String × String)
deriving DecidableEq

/-- isCollidingIdent from the source: the candidate collides when it equals
some import's explicit alias or some reserved identifier. -/
def isCollidingIdent (c : CompiledTemplatesProgram) (ident : String) : Bool :=
  c.imports.any (fun i => i.name = some ident) || c.idents.contains ident

/-- addImport from the source: return the existing alias on an exact quoted
path match; otherwise append a new import record, disambiguating a
colliding base name with the fixed "alias" marker (without re-checking),
and reserve the alias. -/
def addImport (c : CompiledTemplatesProgram) (pkgpath : String) :
    String × CompiledTemplatesProgram :=
  let qpath := goQuote pkgpath
  let bpath := filepathBase pkgpath
  match c.imports.find? (fun i => i.pathValue = qpath) with
  | some i =>
    (match i.name with
     | none => bpath
     | some n => n, c)
  | none =>
    -- the Go code appends the record (with nil name) before the collision
    -- check; a nil name never participates in the check
    if isCollidingIdent { c with imports := c.imports ++ [⟨qpath, none⟩] } bpath then
      let bpath2 := "alias" ++ bpath
      (bpath2, { c with imports := c.imports ++ [⟨qpath, some bpath2⟩],
                        idents := c.idents ++ [bpath2] })
    else
      (bpath, { c with imports := c.imports ++ [⟨qpath, none⟩],
                       idents := c.idents ++ [bpath] })

/-- Candidate sequence probed by makeFuncName: the base name itself, then
fn0base, fn1base, and so on. -/
def funcNameCandidate (baseName : String) : Nat → String
  | 0 => baseName
  | i + 1 => "fn" ++ natRepr i ++ baseName

/-- Loop of makeFuncName, with fuel for structural recursion: while the
current candidate collides, move to the next one. -/
def makeFuncNameAux (c : CompiledTemplatesProgram) (baseName : String) :
    Nat → Nat → String → String
  | 0, _, x => x
  | fuel + 1, i, x =>
    if isCollidingIdent c x then
      makeFuncNameAux c baseName fuel (i + 1) ("fn" ++ natRepr i ++ baseName)
    else x

/-- makeFuncName from the source: probe candidates until one does not
collide, then reserve it.  The fuel exceeds the number of reserved
identifiers and imports, which suffices for the loop to terminate at the
first collision-free candidate. -/
def makeFuncName (c : CompiledTemplatesProgram) (baseName : String) :
    String × CompiledTemplatesProgram :=
  let x := makeFuncNameAux c baseName (c.idents.length + c.imports.length + 1) 0 baseName
  (x, { c with idents := c.idents ++ [x] })

/-- addBuiltintText from the source: return the existing constant name for
a literal already interned, otherwise allocate builtinN where N is the
current table size and record the mapping. -/
def addBuiltintText (c : CompiledTemplatesProgram) (text : String) :
    String × CompiledTemplatesProgram :=
  match c.builtinTexts.find? (fun p => p.1 = text) with
  | some p => (p.2, c)
  | none =>
    let name := "builtin" ++ natRepr c.builtinTexts.length
    (name, { c with builtinTexts := c.builtinTexts ++ [(text, name)] })

/-- NewCompiledTemplatesProgram from the source: reserve the runtime
parameter names and the registry variable name, then import io and the
runtime parse package. -/
def NewCompiledTemplatesProgram (varName : String) : CompiledTemplatesProgram :=
  let c0 : CompiledTemplatesProgram :=
    { varName := varName
      imports := []
      funcs := []
      idents := ["t", "w", "data", "indata", varName]
      builtinTexts := [] }
  let c1 := (addImport c0 "io").2
  (addImport c1 "github.com/mh-cbon/template-compiler/std/text/template/parse").2

/-! ### Template work units -/

/-- A parsed template tree (text/template/parse.Tree); the assembler treats
trees opaquely and only passes them to the external node converter. -/
structure Tree where
  id : Nat
deriving DecidableEq

/-- A type-checker/simplifier state (simplifier.State); opaque to the
assembler. -/
structure SimplState where
  id : Nat
deriving DecidableEq

/-- The fields of compiled.TemplateConfiguration that compile.go reads: the
file glob and the HTML (contextual-escaping) mode flag.  The data shape and
function library are only handed to external collaborators and are folded
into the environment models below. -/
structure TemplateConfiguration where
  templatesPath : String
  html : Bool
deriving DecidableEq

/-- TemplateFileToCompile from the source: the unit name, the maps from
template name to tree, to assigned function identifier and to type-check
state (Go maps modelled as association lists), and the list of defined
(nested) template names. -/
structure TemplateFileToCompile where
  name : String
  tplsTree : List (String × Tree)
  tplsFunc : List (String × String)
  tplsTypeCheck : List (String × SimplState)
  definedTemplates : List String
deriving DecidableEq

/-- TemplateToCompile from the source: one configuration entry plus the
work units produced for it. -/
structure TemplateToCompile where
  conf : TemplateConfiguration
  files : List TemplateFileToCompile
deriving DecidableEq

/-- Lookup in an association list modelling a Go map read. -/
def alistGet? {α : Type} (l : List (String × α)) (k : String) : Option α :=
  (l.find? (fun p => p.1 = k)).map (fun p => p.2)

/-- Update of an association list modelling a Go map assignment to a key
already present (the only way compile.go reassigns). -/
def alistSet {α : Type} (l : List (String × α)) (k : String) (v : α) :
    List (String × α) :=
  l.map (fun p => if p.1 = k then (k, v) else p)

/-- names from the source: the keys of the tree map in sorted order
(sort.Strings). -/
def TemplateFileToCompile.names (f : TemplateFileToCompile) : List String :=
  List.insertionSort (fun a b => a ≤ b) (f.tplsTree.map Prod.fst)

/-! ### convertTemplates and the external node converter -/

/-- Modelled from the spec: the external node converter (convertTplTree,
defined outside this file's source): given the assigned function
identifier, the tree and the type-check state, it either fails or returns
the program state extended with whatever imports, literals and function
declarations the conversion requested. -/
structure ConvertEnv where
  convertTplTree : String → Option Tree → Option SimplState →
    CompiledTemplatesProgram → Except String CompiledTemplatesProgram

/-- Body of the innermost convertTemplates loop: allocate the collision-free
function name from the provisional one, then case-normalize it, store it
back in the unit's function map, and run the node converter on it. -/
def convertTemplateName (env : ConvertEnv) (c : CompiledTemplatesProgram)
    (f : TemplateFileToCompile) (name : String) :
    Except String (CompiledTemplatesProgram × TemplateFileToCompile) :=
  let r1 := makeFuncName c ((alistGet? f.tplsFunc name).getD "")
  let f1 := { f with tplsFunc := alistSet f.tplsFunc name r1.1 }
  let y := snakeToCamel ((alistGet? f1.tplsFunc name).getD "")
  let f2 := { f1 with tplsFunc := alistSet f1.tplsFunc name y }
  match env.convertTplTree y (alistGet? f2.tplsTree name)
      (alistGet? f2.tplsTypeCheck name) r1.2 with
  | .error e => .error e
  | .ok c2 => .ok (c2, f2)

/-- Middle convertTemplates loop: process every name of one unit in sorted
order. -/
def convertTemplateFile (env : ConvertEnv) (c : CompiledTemplatesProgram)
    (f : TemplateFileToCompile) :
    Except String (CompiledTemplatesProgram × TemplateFileToCompile) :=
  f.names.foldlM (fun acc name => convertTemplateName env acc.1 acc.2 name) (c, f)

/-- convertTemplates from the source: thread the shared program state
through every unit of every configuration entry. -/
def convertTemplates (env : ConvertEnv) (c : CompiledTemplatesProgram)
    (tpls : List TemplateToCompile) :
    Except String (CompiledTemplatesProgram × List TemplateToCompile) :=
  tpls.foldlM
    (fun acc t => do
      let r ← t.files.foldlM
        (fun (acc2 : CompiledTemplatesProgram × List TemplateFileToCompile) f => do
          let r2 ← convertTemplateFile env acc2.1 f
          pure (r2.1, acc2.2 ++ [r2.2]))
        (acc.1, ([] : List TemplateFileToCompile))
      pure (r.1, acc.2 ++ [{ t with files := r.2 }]))
    (c, ([] : List TemplateToCompile))

/-! ### The generated init routine -/

/-- One registration line of the init routine (first loop group of
generateInitFunc). -/
def addLine (varName : String) (f : TemplateFileToCompile) (name : String) : String :=
  "  " ++ varName ++ ".Add(" ++ goQuote name ++ ", " ++
    ((alistGet? f.tplsFunc name).getD "") ++ ")\n"

/-- One attachment rebinding block of the init routine (second loop group
of generateInitFunc): fetch main and nested entries, attach discarding the
error, overwrite the main slot. -/
def attachBlock (varName : String) (i e : Nat) (mainName nestedName : String) : String :=
  let varX := "tpl" ++ natRepr i ++ "X" ++ natRepr e
  let varY := "tpl" ++ natRepr i ++ "Y" ++ natRepr e
  "  " ++ varX ++ " := " ++ varName ++ ".MustGet(" ++ goQuote mainName ++ ")\n" ++
  "  " ++ varY ++ " := " ++ varName ++ ".MustGet(" ++ goQuote nestedName ++ ")\n" ++
  "  " ++ varX ++ ", _ = " ++ varX ++ ".Compiled(" ++ varY ++ ")\n" ++
  "  " ++ varName ++ ".Set(" ++ goQuote mainName ++ ", " ++ varX ++ ")\n"

/-- generateInitFunc from the source: the registration loop group over all
entries, then the attachment loop group, inside one init function. -/
def generateInitFunc (c : CompiledTemplatesProgram) (tpls : List TemplateToCompile) :
    String :=
  let s0 := "" ++ "func init () \x7b\n"
  let s1 := tpls.foldl (fun acc t =>
    t.files.foldl (fun acc2 f =>
      f.names.foldl (fun acc3 name => acc3 ++ addLine c.varName f name) acc2) acc) s0
  let s2 := tpls.foldl (fun acc t =>
    t.files.enum.foldl (fun acc2 p =>
      p.2.definedTemplates.enum.foldl (fun acc3 q =>
        acc3 ++ attachBlock c.varName p.1 q.1 p.2.name q.2) acc2) acc) s1
  s2 ++ "\x7d"

/-! ### The assembled output artifact -/

/-- generateImportStmt from the source: the import block in record order,
with the explicit alias prepended when present. -/
def generateImportStmt (c : CompiledTemplatesProgram) : String :=
  (c.imports.foldl (fun acc i =>
    acc ++ "\t" ++ (match i.name with | some n => n ++ " " | none => "") ++
      i.pathValue ++ "\n") "import (\n") ++ ")"

/-- generateBuiltins from the source ranges over the Go builtinTexts map,
whose iteration order is unspecified; the embedding therefore takes the
entry delivery order as a parameter (any permutation of the table can
occur at runtime). -/
def generateBuiltinsWith (entries : List (String × String)) : String :=
  entries.foldl (fun acc p =>
    acc ++ "var " ++ p.2 ++ " = []byte(" ++ goQuote p.1 ++ ")\n") ""

/-- generateProgram from the source: package clause, lint marker, imports,
literal constants, init routine, then every generated function, each part
followed by a blank line.  builtinOrder is the order in which the map range
delivers the literal table. -/
def generateProgram (c : CompiledTemplatesProgram) (outpkg : String)
    (tpls : List TemplateToCompile) (builtinOrder : List (String × String)) : String :=
  "package " ++ outpkg ++ "\n\n" ++
  "//golint:ignore\n\n" ++
  generateImportStmt c ++ "\n\n" ++
  generateBuiltinsWith builtinOrder ++ "\n\n" ++
  generateInitFunc c tpls ++ "\n\n" ++
  c.funcs.foldl (fun acc f => acc ++ f ++ "\n\n") ""

/-! ### Discovery, loading and the whole pipeline -/

/-- The Configuration fields compile.go reads: output path, output package
(inferred when empty) and the template entries. -/
structure Configuration where
  outPath : String
  outPkg : String
  templates : List TemplateConfiguration
deriving DecidableEq

/-- Errors of the compile pipeline, one constructor per failing stage. -/
inductive CompileError where
  | packageLookup (msg : String)
  | discovery (pattern msg : String)
  | fileLoad (path msg : String)
  | conversion (msg : String)
  | write (msg : String)
deriving DecidableEq

/-- The external parser's outcome for one source text: every named template
it declares, each with its tree after the no-op render probe (a nil tree
modelled as none). -/
structure ParsedTemplate where
  name : String
  tree : Option Tree
deriving DecidableEq

/-- Boundary model of the external collaborators the pipeline calls:
package-name lookup, filepath.Glob (which errors exactly on a malformed
pattern), per-file loading (read + parse + type-check), the node
converter, the Go map iteration schedule, and the file writer. -/
structure CompileEnv where
  lookupPackageName : String → Except String String
  glob : String → Except String (List String)
  loadFile : String → TemplateConfiguration → Except String TemplateFileToCompile
  convert : ConvertEnv
  mapRange : List (String × String) → List (String × String)
  writeFile : String → String → Except String Unit

/-- makeTemplateToCompileNew from the source: a fresh work-item holder with
no files yet. -/
def makeTemplateToCompileNew (conf : TemplateConfiguration) : TemplateToCompile :=
  ⟨conf, []⟩

/-- convertConfigToTemplatesToCompile from the source. -/
def convertConfigToTemplatesToCompile (conf : Configuration) : List TemplateToCompile :=
  conf.templates.map makeTemplateToCompileNew

/-- Loop body of prepare: load every matched path in order, appending each
produced unit, failing fast on a load error. -/
def loadFiles (env : CompileEnv) : TemplateToCompile → List String →
    Except CompileError TemplateToCompile
  | t, [] => .ok t
  | t, p :: ps =>
    match env.loadFile p t.conf with
    | .error e => .error (.fileLoad p e)
    | .ok f => loadFiles env { t with files := t.files ++ [f] } ps

/-- prepare from the source: expand the glob (wrapping a malformed-pattern
error as a discovery failure), then load every matched file in order. -/
def prepare (env : CompileEnv) (t : TemplateToCompile) :
    Except CompileError TemplateToCompile :=
  match env.glob t.conf.templatesPath with
  | .error e => .error (.discovery t.conf.templatesPath e)
  | .ok tplsPath => loadFiles env t tplsPath

/-- getTemplatesToCompile from the source: build one work-item holder per
configuration entry and prepare each, failing fast. -/
def getTemplatesToCompile (env : CompileEnv) (conf : Configuration) :
    Except CompileError (List TemplateToCompile) :=
  (convertConfigToTemplatesToCompile conf).mapM (prepare env)

/-- updateOutPkg from the source: infer the output package name only when
none is configured. -/
def updateOutPkg (env : CompileEnv) (conf : Configuration) :
    Except CompileError Configuration :=
  if conf.outPkg = "" then
    match env.lookupPackageName conf.outPath with
    | .error e => .error (.packageLookup e)
    | .ok pkg => .ok { conf with outPkg := pkg }
  else .ok conf

/-- compileTemplates from the source: convert every tree, then assemble the
artifact text. -/
def compileTemplates (env : CompileEnv) (c : CompiledTemplatesProgram)
    (outpkg : String) (tpls : List TemplateToCompile) : Except CompileError String :=
  match convertTemplates env.convert c tpls with
  | .error e => .error (.conversion e)
  | .ok r => .ok (generateProgram r.1 outpkg r.2 (env.mapRange r.1.builtinTexts))

/-- Compile from the source: resolve the output package, discover and load
the work units, then compile them. -/
def Compile (c : CompiledTemplatesProgram) (env : CompileEnv)
    (config : Configuration) : Except CompileError String :=
  match updateOutPkg env config with
  | .error e => .error e
  | .ok config2 =>
    match getTemplatesToCompile env config2 with
    | .error e => .error e
    | .ok tpls => compileTemplates env c config2.outPkg tpls

/-- CompileAndWrite from the source, with an explicit write log: on any
compile failure the error is returned and nothing is written; otherwise the
finished artifact is written to the configured output path. -/
def CompileAndWrite (c : CompiledTemplatesProgram) (env : CompileEnv)
    (config : Configuration) : Except CompileError Unit × List (String × String) :=
  match Compile c env config with
  | .error e => (.error e, [])
  | .ok program =>
    match env.writeFile config.outPath program with
    | .error e => (.error (.write e), [(config.outPath, program)])
    | .ok _ => (.ok (), [(config.outPath, program)])

/-- compileTextTemplate from the source, parameterized by the external
text/template engine's outcome: on parse success, keep exactly the named
templates whose post-probe tree is set; a parse failure is returned as is. -/
def compileTextTemplate (parsed : Except String (List ParsedTemplate)) :
    Except String (List (String × Tree)) :=
  match parsed with
  | .error e => .error e
  | .ok tplList =>
    .ok (tplList.foldl (fun acc tpl =>
      match tpl.tree with
      | some tr => acc ++ [(tpl.name, tr)]
      | none => acc) [])

/-- compileHTMLTemplate from the source: identical handling over the
html/template engine's outcome. -/
def compileHTMLTemplate (parsed : Except String (List ParsedTemplate)) :
    Except String (List (String × Tree)) :=
  match parsed with
  | .error e => .error e
  | .ok tplList =>
    .ok (tplList.foldl (fun acc tpl =>
      match tpl.tree with
      | some tr => acc ++ [(tpl.name, tr)]
      | none => acc) [])

/-! ### Statement-level view of the init routine -/

/-- One statement of the generated init routine: a registration, or one
attachment rebinding block (carrying the loop indices that name its local
variables). -/
inductive InitStmt where
  | add (name funcname : String)
  | attach (fileIdx defIdx : Nat) (mainName nestedName : String)
deriving DecidableEq

/-- Text of one init statement, exactly as generateInitFunc emits it. -/
def renderInitStmt (varName : String) : InitStmt → String
  | .add name funcname =>
    "  " ++ varName ++ ".Add(" ++ goQuote name ++ ", " ++ funcname ++ ")\n"
  | .attach i e mainName nestedName => attachBlock varName i e mainName nestedName

/-- The registration statements of the init routine, in emission order. -/
def initAddStmts (tpls : List TemplateToCompile) : List InitStmt :=
  tpls.flatMap (fun t => t.files.flatMap (fun f =>
    f.names.map (fun name => InitStmt.add name ((alistGet? f.tplsFunc name).getD ""))))

/-- The attachment statements of the init routine, in emission order. -/
def initAttachStmts (tpls : List TemplateToCompile) : List InitStmt :=
  tpls.flatMap (fun t => t.files.enum.flatMap (fun p =>
    p.2.definedTemplates.enum.map (fun q => InitStmt.attach p.1 q.1 p.2.name q.2)))

/-- All statements of the init routine in emission order: registrations
first, then attachments. -/
def initStmts (tpls : List TemplateToCompile) : List InitStmt :=
  initAddStmts tpls ++ initAttachStmts tpls

/-- Concatenation of a list of strings. -/
def concatAll (l : List String) : String := l.foldr (fun a b => a ++ b) ""

/-! ### Runtime semantics of the init routine (registry collaborator) -/

/-- Modelled from the spec: a registry entry is a compiled function, or an
attached variant of an entry using another entry as its compiled
implementation. -/
inductive Entry where
  | fn (funcname : String)
  | attached (main nested : Entry)
deriving DecidableEq

/-- The consumer-owned registry, a name-to-entry map. -/
abbrev Registry : Type := List (String × Entry)

/-- Modelled from the spec: registry Add and Set both bind a name to an
entry (overwriting an existing binding). -/
def registrySet (r : Registry) (name : String) (e : Entry) : Registry :=
  if ((r : List (String × Entry)).find? (fun p => p.1 = name)).isSome then
    alistSet r name e
  else r ++ [(name, e)]

/-- Modelled from the spec: registry MustGet; the generated init routine
only fetches names registered by its own first loop group, so the default
for a missing name is never reached there. -/
def registryMustGet (r : Registry) (name : String) : Entry :=
  (alistGet? r name).getD (Entry.fn "")

/-- Execution of one init statement against the registry.  ok models the
entry-level Compiled call succeeding; per the spec, the attachment error is
discarded and a failed attachment leaves the previously registered entry in
place, so a failing Compiled yields its receiver. -/
def execInitStmt (ok : Entry → Entry → Bool) (r : Registry) : InitStmt → Registry
  | .add name funcname => registrySet r name (.fn funcname)
  | .attach _ _ mainName nestedName =>
    let x := registryMustGet r mainName
    let y := registryMustGet r nestedName
    let x2 := if ok x y then Entry.attached x y else x
    registrySet r mainName x2

/-! ### Lemmas: decimal rendering is injective -/

theorem digitsLE_small {n : Nat} (h : n < 10) : digitsLE n = [n] := by
  cases n with
  | zero => rfl
  | succ m => simp [digitsLE, digitsLEAux, h]

theorem digitsLEAux_irrel (n : Nat) : ∀ fuel, n ≤ fuel → digitsLEAux fuel n = digitsLE n := by
  induction n using Nat.strong_induction_on with
  | _ n ih =>
    intro fuel hle
    by_cases h10 : n < 10
    · cases fuel with
      | zero =>
        have hn : n = 0 := Nat.le_zero.mp hle
        subst hn; rfl
      | succ f => simp [digitsLEAux, h10, digitsLE_small h10]
    · have hn0 : 10 ≤ n := Nat.le_of_not_lt h10
      obtain ⟨m, hm⟩ : ∃ m, n = m + 1 := ⟨n - 1, by omega⟩
      subst hm
      have hdiv : (m + 1) / 10 < m + 1 := Nat.div_lt_self (by omega) (by omega)
      cases fuel with
      | zero => omega
      | succ f =>
        have h1 : digitsLEAux (f + 1) (m + 1)
            = ((m + 1) % 10) :: digitsLEAux f ((m + 1) / 10) := by
          simp [digitsLEAux, h10]
        have h2 : digitsLE (m + 1) = ((m + 1) % 10) :: digitsLEAux m ((m + 1) / 10) := by
          rw [digitsLE]
          simp [digitsLEAux, h10]
        rw [h1, h2,
          ih ((m + 1) / 10) hdiv f (by omega),
          ih ((m + 1) / 10) hdiv m (by omega)]

theorem digitsLE_eq (n : Nat) :
    digitsLE n = if n < 10 then [n] else (n % 10) :: digitsLE (n / 10) := by
  by_cases h10 : n < 10
  · simp [h10, digitsLE_small h10]
  · have hn0 : 10 ≤ n := Nat.le_of_not_lt h10
    obtain ⟨m, hm⟩ : ∃ m, n = m + 1 := ⟨n - 1, by omega⟩
    subst hm
    simp only [h10, if_false]
    rw [digitsLE]
    have h3 : digitsLEAux (m + 1) (m + 1) = ((m + 1) % 10) :: digitsLEAux m ((m + 1) / 10) := by
      simp [digitsLEAux, h10]
    rw [h3, digitsLEAux_irrel ((m + 1) / 10) m (by omega)]

theorem digitsLE_inj : ∀ a b : Nat, digitsLE a = digitsLE b → a = b := by
  intro a
  induction a using Nat.strong_induction_on with
  | _ a ih =>
    intro b h
    rw [digitsLE_eq a, digitsLE_eq b] at h
    by_cases ha : a < 10 <;> by_cases hb : b < 10 <;> simp [ha, hb] at h
    · exact h
    · exfalso
      have : digitsLE (b / 10) = [] := by
        cases h' : digitsLE (b / 10) with
        | nil => rfl
        | cons x xs => rw [h'] at h; simp at h
      rw [digitsLE_eq (b / 10)] at this
      by_cases hb' : b / 10 < 10 <;> simp [hb'] at this
    · exfalso
      have : digitsLE (a / 10) = [] := by
        cases h' : digitsLE (a / 10) with
        | nil => rfl
        | cons x xs => rw [h'] at h; simp at h
      rw [digitsLE_eq (a / 10)] at this
      by_cases ha' : a / 10 < 10 <;> simp [ha'] at this
    · have hdiv : a / 10 = b / 10 :=
        ih (a / 10) (Nat.div_lt_self (by omega) (by omega)) (b / 10) h.2
      have hmod : a % 10 = b % 10 := h.1
      omega

theorem digitsLE_lt10 : ∀ (n : Nat), ∀ d ∈ digitsLE n, d < 10 := by
  intro n
  induction n using Nat.strong_induction_on with
  | _ n ih =>
    intro d hd
    rw [digitsLE_eq n] at hd
    by_cases h10 : n < 10 <;> simp [h10] at hd
    · omega
    · rcases hd with h | h
      · omega
      · exact ih (n / 10) (Nat.div_lt_self (by omega) (by omega)) d h

theorem digitChar_inj_lt : ∀ a < 10, ∀ b < 10, Nat.digitChar a = Nat.digitChar b → a = b := by
  decide

theorem map_digitChar_inj : ∀ l1 l2 : List Nat, (∀ d ∈ l1, d < 10) → (∀ d ∈ l2, d < 10) →
    l1.map Nat.digitChar = l2.map Nat.digitChar → l1 = l2 := by
  intro l1
  induction l1 with
  | nil => intro l2 _ _ h; cases l2 <;> simp_all
  | cons a as ihm =>
    intro l2 h1 h2 h
    cases l2 with
    | nil => simp at h
    | cons b bs =>
      simp only [List.map_cons, List.cons.injEq] at h
      have hab : a = b :=
        digitChar_inj_lt a (h1 a (by simp)) b (h2 b (by simp)) h.1
      have : as = bs :=
        ihm bs (fun d hd => h1 d (by simp [hd])) (fun d hd => h2 d (by simp [hd])) h.2
      simp [hab, this]

theorem natRepr_inj : Function.Injective natRepr := by
  intro a b h
  have h' : ((digitsLE a).reverse.map Nat.digitChar)
      = ((digitsLE b).reverse.map Nat.digitChar) := congrArg String.data h
  have h2 : (digitsLE a).reverse = (digitsLE b).reverse :=
    map_digitChar_inj _ _
      (fun d hd => digitsLE_lt10 a d (List.mem_reverse.mp hd))
      (fun d hd => digitsLE_lt10 b d (List.mem_reverse.mp hd)) h'
  exact digitsLE_inj a b (List.reverse_inj.mp h2)

theorem natRepr_length_pos (n : Nat) : 0 < (natRepr n).length := by
  have : (natRepr n).data.length = (digitsLE n).length := by
    simp [natRepr]
  have hne : digitsLE n ≠ [] := by
    rw [digitsLE_eq n]
    by_cases h10 : n < 10 <;> simp [h10]
  have : 0 < (digitsLE n).length := List.length_pos.mpr hne
  simp only [String.length]
  omega

/-! ### Lemmas: string-fold fusion for the init routine -/

theorem concatAll_cons (a : String) (l : List String) :
    concatAll (a :: l) = a ++ concatAll l := rfl

theorem concatAll_append (l1 l2 : List String) :
    concatAll (l1 ++ l2) = concatAll l1 ++ concatAll l2 := by
  induction l1 with
  | nil => simp [concatAll]
  | cons a t ih =>
    rw [List.cons_append, concatAll_cons, concatAll_cons, ih, String.append_assoc]

theorem foldl_strcat {α : Type} (g : α → String) :
    ∀ (l : List α) (acc : String),
      l.foldl (fun a x => a ++ g x) acc = acc ++ concatAll (l.map g) := by
  intro l
  induction l with
  | nil => intro acc; simp [concatAll]
  | cons a t ih =>
    intro acc
    rw [List.foldl_cons, ih, List.map_cons, concatAll_cons, String.append_assoc]

theorem foldl_strcat₂ {α β : Type} (h : α → List β) (g : α → β → String) :
    ∀ (l : List α) (acc : String),
      l.foldl (fun a x => (h x).foldl (fun a2 y => a2 ++ g x y) a) acc
        = acc ++ concatAll (l.flatMap (fun x => (h x).map (g x))) := by
  intro l
  induction l with
  | nil => intro acc; simp [concatAll]
  | cons a t ih =>
    intro acc
    rw [List.foldl_cons, foldl_strcat (g a) (h a) acc, ih, List.flatMap_cons,
      concatAll_append, String.append_assoc]

theorem foldl_strcat₃ {α β γ : Type} (h1 : α → List β) (h2 : β → List γ)
    (g : α → β → γ → String) :
    ∀ (l : List α) (acc : String),
      l.foldl (fun a x => (h1 x).foldl
        (fun a2 y => (h2 y).foldl (fun a3 z => a3 ++ g x y z) a2) a) acc
        = acc ++ concatAll (l.flatMap (fun x =>
            (h1 x).flatMap (fun y => (h2 y).map (g x y)))) := by
  intro l
  induction l with
  | nil => intro acc; simp [concatAll]
  | cons a t ih =>
    intro acc
    rw [List.foldl_cons, foldl_strcat₂ h2 (g a) (h1 a) acc, ih, List.flatMap_cons,
      concatAll_append, String.append_assoc]

theorem generateInitFunc_eq (c : CompiledTemplatesProgram) (tpls : List TemplateToCompile) :
    generateInitFunc c tpls
      = "func init () \x7b\n"
        ++ concatAll ((initStmts tpls).map (renderInitStmt c.varName)) ++ "\x7d" := by
  simp only [generateInitFunc]
  rw [foldl_strcat₃ (fun t => t.files) (fun f => f.names)
    (fun _ f name => addLine c.varName f name) tpls]
  rw [foldl_strcat₃ (fun t => t.files.enum) (fun p => p.2.definedTemplates.enum)
    (fun _ p q => attachBlock c.varName p.1 q.1 p.2.name q.2) tpls]
  rw [String.empty_append]
  have hadd : (initAddStmts tpls).map (renderInitStmt c.varName)
      = tpls.flatMap (fun t => t.files.flatMap (fun f =>
          f.names.map (fun name => addLine c.varName f name))) := by
    simp only [initAddStmts, List.map_flatMap, List.map_map]
    rfl
  have hatt : (initAttachStmts tpls).map (renderInitStmt c.varName)
      = tpls.flatMap (fun t => t.files.enum.flatMap (fun p =>
          p.2.definedTemplates.enum.map (fun q =>
            attachBlock c.varName p.1 q.1 p.2.name q.2))) := by
    simp only [initAttachStmts, List.map_flatMap, List.map_map]
    rfl
  rw [initStmts, List.map_append, concatAll_append, hadd, hatt]
  simp only [String.append_assoc]

/-! ### Lemmas: registry semantics -/

theorem alistGet?_alistSet_self {α : Type} :
    ∀ (l : List (String × α)) (k : String) (v : α),
      alistGet? (alistSet l k v) k = if (alistGet? l k).isSome then some v else none := by
  intro l k v
  induction l with
  | nil => simp [alistGet?, alistSet]
  | cons p t ih =>
    by_cases hp : p.1 = k
    · have h1 : alistSet (p :: t) k v = (k, v) :: alistSet t k v := by
        simp [alistSet, hp]
      have h2 : alistGet? ((k, v) :: alistSet t k v) k = some v := by
        simp [alistGet?]
      have h3 : (alistGet? (p :: t) k).isSome := by
        unfold alistGet?
        rw [List.find?_cons_of_pos _ (by simp [hp])]
        rfl
      rw [h1, h2, if_pos h3]
    · have h1 : alistSet (p :: t) k v = p :: alistSet t k v := by
        simp [alistSet, hp]
      have h2 : alistGet? (p :: alistSet t k v) k = alistGet? (alistSet t k v) k := by
        unfold alistGet?
        rw [List.find?_cons_of_neg _ (by simp [hp])]
      have h3 : alistGet? (p :: t) k = alistGet? t k := by
        unfold alistGet?
        rw [List.find?_cons_of_neg _ (by simp [hp])]
      rw [h1, h2, h3, ih]

theorem registryMustGet_registrySet_self (r : Registry) (name : String) (e : Entry) :
    registryMustGet (registrySet r name e) name = e := by
  unfold registrySet registryMustGet
  by_cases h : ((r : List (String × Entry)).find? (fun p => p.1 = name)).isSome
  · rw [if_pos h, alistGet?_alistSet_self]
    obtain ⟨x, hx⟩ := Option.isSome_iff_exists.mp h
    have h2 : (alistGet? r name).isSome := by
      simp [alistGet?, hx]
    rw [if_pos h2]
    rfl
  · rw [if_neg h]
    have h2 : (r : List (String × Entry)).find? (fun p => p.1 = name) = none :=
      Option.not_isSome_iff_eq_none.mp h
    simp [alistGet?, List.find?_append, h2]

theorem execInitStmt_add (ok : Entry → Entry → Bool) (r : Registry) (name fn : String) :
    registryMustGet (execInitStmt ok r (.add name fn)) name = .fn fn := by
  simp [execInitStmt, registryMustGet_registrySet_self]

theorem execInitStmt_attach (ok : Entry → Entry → Bool) (r : Registry)
    (i e : Nat) (m n : String) :
    registryMustGet (execInitStmt ok r (.attach i e m n)) m
      = if ok (registryMustGet r m) (registryMustGet r n) then
          Entry.attached (registryMustGet r m) (registryMustGet r n)
        else registryMustGet r m := by
  simp only [execInitStmt]
  rw [registryMustGet_registrySet_self]

/-! ### Lemmas: makeFuncName finds the first collision-free candidate -/

/-- Every identifier the collision check can match: explicit import aliases
and the reserved identifier list. -/
def badIdents (c : CompiledTemplatesProgram) : List String :=
  c.imports.filterMap (fun i => i.name) ++ c.idents

theorem isCollidingIdent_iff_mem (c : CompiledTemplatesProgram) (x : String) :
    isCollidingIdent c x = true ↔ x ∈ badIdents c := by
  simp [isCollidingIdent, badIdents, List.any_eq_true, List.mem_filterMap]

theorem funcNameCandidate_injective (b : String) :
    Function.Injective (funcNameCandidate b) := by
  intro i j h
  cases i with
  | zero =>
    cases j with
    | zero => rfl
    | succ m =>
      exfalso
      have hlen := congrArg String.length h
      simp only [funcNameCandidate, String.length_append] at hlen
      have h2 := natRepr_length_pos m
      have h3 : ("fn" : String).length = 2 := rfl
      omega
  | succ n =>
    cases j with
    | zero =>
      exfalso
      have hlen := congrArg String.length h
      simp only [funcNameCandidate, String.length_append] at hlen
      have h2 := natRepr_length_pos n
      have h3 : ("fn" : String).length = 2 := rfl
      omega
    | succ m =>
      simp only [funcNameCandidate] at h
      have hd := congrArg String.data h
      simp only [String.data_append] at hd
      have h1 := List.append_cancel_right hd
      have h2 := List.append_cancel_left h1
      have h3 : natRepr n = natRepr m := String.ext h2
      rw [natRepr_inj h3]

theorem exists_fresh_candidate (c : CompiledTemplatesProgram) (b : String) :
    ∃ k, k ≤ (badIdents c).length ∧ isCollidingIdent c (funcNameCandidate b k) = false := by
  by_contra hcon
  push_neg at hcon
  have hall : ∀ k ≤ (badIdents c).length, funcNameCandidate b k ∈ badIdents c := by
    intro k hk
    have h1 := hcon k hk
    simp only [ne_eq, Bool.not_eq_false] at h1
    exact (isCollidingIdent_iff_mem c _).mp h1
  have hsub : (List.range ((badIdents c).length + 1)).map (funcNameCandidate b)
      ⊆ badIdents c := by
    intro x hx
    simp only [List.mem_map, List.mem_range] at hx
    obtain ⟨k, hk, rfl⟩ := hx
    exact hall k (by omega)
  have hnodup : ((List.range ((badIdents c).length + 1)).map (funcNameCandidate b)).Nodup :=
    (List.nodup_range _).map (funcNameCandidate_injective b)
  have hle := (List.subperm_of_subset hnodup hsub).length_le
  simp only [List.length_map, List.length_range] at hle
  omega

theorem makeFuncNameAux_eq (c : CompiledTemplatesProgram) (b : String) :
    ∀ (fuel i k : Nat), i ≤ k → k - i < fuel →
      isCollidingIdent c (funcNameCandidate b k) = false →
      (∀ j, i ≤ j → j < k → isCollidingIdent c (funcNameCandidate b j) = true) →
      makeFuncNameAux c b fuel i (funcNameCandidate b i) = funcNameCandidate b k := by
  intro fuel
  induction fuel with
  | zero => intro i k h1 h2 _ _; omega
  | succ f ih =>
    intro i k h1 h2 hk hmin
    by_cases hi : isCollidingIdent c (funcNameCandidate b i) = true
    · have hik : i ≠ k := by
        intro he
        rw [he, hk] at hi
        cases hi
      have hcand : ("fn" ++ natRepr i ++ b) = funcNameCandidate b (i + 1) := rfl
      simp only [makeFuncNameAux, hi, if_true, hcand]
      exact ih (i + 1) k (by omega) (by omega) hk
        (fun j hj1 hj2 => hmin j (by omega) hj2)
    · have hieq : i = k := by
        by_contra hne
        exact hi (hmin i (Nat.le_refl i) (by omega))
      subst hieq
      simp only [makeFuncNameAux, hi, if_false]
      simp [Bool.not_eq_true] at hi
      simp [hi]

theorem makeFuncName_eq (c : CompiledTemplatesProgram) (b : String) :
    ∃ k, isCollidingIdent c (funcNameCandidate b k) = false ∧
      (∀ j < k, isCollidingIdent c (funcNameCandidate b j) = true) ∧
      makeFuncName c b = (funcNameCandidate b k,
        { c with idents := c.idents ++ [funcNameCandidate b k] }) := by
  obtain ⟨k0, hk0le, hk0⟩ := exists_fresh_candidate c b
  have hex : ∃ k, isCollidingIdent c (funcNameCandidate b k) = false := ⟨k0, hk0⟩
  refine ⟨Nat.find hex, Nat.find_spec hex, ?_, ?_⟩
  · intro j hj
    have := Nat.find_min hex hj
    rw [Bool.not_eq_false] at this
    exact this
  · have hfind_le : Nat.find hex ≤ k0 := Nat.find_min' hex hk0
    have hbad : (badIdents c).length ≤ c.idents.length + c.imports.length := by
      have := List.length_filterMap_le (fun i : ImportSpec => i.name) c.imports
      simp only [badIdents, List.length_append]
      omega
    have hres : makeFuncNameAux c b (c.idents.length + c.imports.length + 1) 0 b
        = funcNameCandidate b (Nat.find hex) :=
      makeFuncNameAux_eq c b (c.idents.length + c.imports.length + 1) 0 (Nat.find hex)
        (Nat.zero_le _) (by omega) (Nat.find_spec hex)
        (fun j _ hj => by
          have h5 := Nat.find_min hex hj
          rw [Bool.not_eq_false] at h5
          exact h5)
    show (makeFuncNameAux c b (c.idents.length + c.imports.length + 1) 0 b,
      { c with idents := c.idents ++
          [makeFuncNameAux c b (c.idents.length + c.imports.length + 1) 0 b] })
      = (funcNameCandidate b (Nat.find hex),
        { c with idents := c.idents ++ [funcNameCandidate b (Nat.find hex)] })
    rw [hres]

/-! ### Lemmas: the literal table -/

/-- Invariant of the literal table: the entry inserted at position i carries
the constant name builtin followed by the decimal of i. -/
def builtinTableOk (T : List (String × String)) : Prop :=
  ∀ i (h : i < T.length), (T[i]).2 = "builtin" ++ natRepr i

theorem builtinName_inj : ∀ i j : Nat,
    ("builtin" ++ natRepr i) = ("builtin" ++ natRepr j) → i = j := by
  intro i j h
  have hd := congrArg String.data h
  simp only [String.data_append] at hd
  have h1 := List.append_cancel_left hd
  exact natRepr_inj (String.ext h1)

theorem addBuiltintText_tableOk (c : CompiledTemplatesProgram) (t : String)
    (hOk : builtinTableOk c.builtinTexts) :
    builtinTableOk (addBuiltintText c t).2.builtinTexts := by
  unfold addBuiltintText
  cases hf : c.builtinTexts.find? (fun p => p.1 = t) with
  | some p => simp only [hf]; exact hOk
  | none =>
    simp only [hf]
    intro i h
    simp only [List.length_append, List.length_cons, List.length_nil] at h
    by_cases hi : i < c.builtinTexts.length
    · rw [List.getElem_append_left hi]
      exact hOk i hi
    · have hieq : i = c.builtinTexts.length := by omega
      rw [List.getElem_append_right (by omega)]
      subst hieq
      simp

theorem tableOk_distinct_values (T : List (String × String)) (hOk : builtinTableOk T) :
    ∀ p ∈ T, ∀ q ∈ T, p.1 ≠ q.1 → p.2 ≠ q.2 := by
  intro p hp q hq hne
  obtain ⟨i, hi, hpi⟩ := List.mem_iff_getElem.mp hp
  obtain ⟨j, hj, hqj⟩ := List.mem_iff_getElem.mp hq
  by_cases hij : i = j
  · subst hij
    rw [hpi] at hqj
    exact absurd (congrArg Prod.fst hqj) hne
  · intro hv
    have h1 : p.2 = "builtin" ++ natRepr i := by rw [← hpi]; exact hOk i hi
    have h2 : q.2 = "builtin" ++ natRepr j := by rw [← hqj]; exact hOk j hj
    rw [h1, h2] at hv
    exact hij (builtinName_inj i j hv)

/-- A sequence of internLiteral calls against the shared program state
(the quantification device for the per-request claims about the table). -/
def internAll (c : CompiledTemplatesProgram) (texts : List String) :
    CompiledTemplatesProgram :=
  texts.foldl (fun acc t => (addBuiltintText acc t).2) c

theorem internAll_tableOk (texts : List String) :
    ∀ (c : CompiledTemplatesProgram), builtinTableOk c.builtinTexts →
      builtinTableOk (internAll c texts).builtinTexts := by
  induction texts with
  | nil => intro c h; exact h
  | cons t ts ih =>
    intro c h
    exact ih _ (addBuiltintText_tableOk c t h)

theorem addBuiltintText_fresh (c : CompiledTemplatesProgram) (text : String)
    (hf : c.builtinTexts.find? (fun p => p.1 = text) = none) :
    (addBuiltintText c text).1 = "builtin" ++ natRepr c.builtinTexts.length ∧
    (addBuiltintText c text).2.builtinTexts
      = c.builtinTexts ++ [(text, "builtin" ++ natRepr c.builtinTexts.length)] := by
  unfold addBuiltintText
  simp [hf]

theorem addBuiltintText_seen (c : CompiledTemplatesProgram) (text : String)
    (p : String × String)
    (hf : c.builtinTexts.find? (fun q => q.1 = text) = some p) :
    (addBuiltintText c text).1 = p.2 ∧ (addBuiltintText c text).2 = c := by
  unfold addBuiltintText
  simp [hf]

theorem addBuiltintText_idem (c : CompiledTemplatesProgram) (text : String) :
    addBuiltintText (addBuiltintText c text).2 text
      = ((addBuiltintText c text).1, (addBuiltintText c text).2) := by
  cases hf : c.builtinTexts.find? (fun p => p.1 = text) with
  | some p => simp [addBuiltintText, hf]
  | none =>
    obtain ⟨h1, h2⟩ := addBuiltintText_fresh c text hf
    have h3 : (addBuiltintText c text).2.builtinTexts.find? (fun p => p.1 = text)
        = some (text, "builtin" ++ natRepr c.builtinTexts.length) := by
      rw [h2, List.find?_append, hf]
      simp
    have hseen := addBuiltintText_seen (addBuiltintText c text).2 text
      (text, "builtin" ++ natRepr c.builtinTexts.length) h3
    exact Prod.ext (by rw [hseen.1, h1]) hseen.2

/-! ### Lemmas: addImport -/

theorem isCollidingIdent_append_none (c : CompiledTemplatesProgram) (q x : String) :
    isCollidingIdent { c with imports := c.imports ++ [⟨q, none⟩] } x
      = isCollidingIdent c x := by
  simp [isCollidingIdent, List.any_append]

theorem addImport_collision_marker (c : CompiledTemplatesProgram) (p : String)
    (hf : c.imports.find? (fun i => i.pathValue = goQuote p) = none)
    (hcol : isCollidingIdent c (filepathBase p) = true) :
    (addImport c p).1 = "alias" ++ filepathBase p := by
  simp only [addImport]
  rw [hf]
  simp only [isCollidingIdent_append_none, hcol, if_true]

theorem addImport_idempotent (c : CompiledTemplatesProgram) (p : String) :
    addImport (addImport c p).2 p = ((addImport c p).1, (addImport c p).2) := by
  cases hf : c.imports.find? (fun i => i.pathValue = goQuote p) with
  | some i =>
    simp [addImport, hf]
  | none =>
    by_cases hcol : isCollidingIdent c (filepathBase p) = true
    · have hstep : addImport c p = ("alias" ++ filepathBase p,
          { c with imports := c.imports ++ [⟨goQuote p, some ("alias" ++ filepathBase p)⟩],
                   idents := c.idents ++ ["alias" ++ filepathBase p] }) := by
        simp only [addImport]
        rw [hf]
        simp only [isCollidingIdent_append_none, hcol, if_true]
      rw [hstep]
      simp only [addImport]
      rw [List.find?_append, hf]
      simp
    · have hcol' : isCollidingIdent c (filepathBase p) = false :=
        Bool.eq_false_iff.mpr hcol
      have hstep : addImport c p = (filepathBase p,
          { c with imports := c.imports ++ [⟨goQuote p, none⟩],
                   idents := c.idents ++ [filepathBase p] }) := by
        simp only [addImport]
        rw [hf]
        simp [isCollidingIdent_append_none, hcol']
      rw [hstep]
      simp only [addImport]
      rw [List.find?_append, hf]
      simp

/-! ### Remaining helper lemmas -/

theorem addImport_builtinTexts (c : CompiledTemplatesProgram) (p : String) :
    (addImport c p).2.builtinTexts = c.builtinTexts := by
  simp only [addImport]
  split
  · rfl
  · split <;> rfl

theorem NewCompiledTemplatesProgram_builtinTexts (v : String) :
    (NewCompiledTemplatesProgram v).builtinTexts = [] := by
  simp only [NewCompiledTemplatesProgram]
  rw [addImport_builtinTexts, addImport_builtinTexts]

theorem addBuiltintText_extends (c : CompiledTemplatesProgram) (t : String) :
    ∃ ext, (addBuiltintText c t).2.builtinTexts = c.builtinTexts ++ ext := by
  cases hf : c.builtinTexts.find? (fun p => p.1 = t) with
  | some p => exact ⟨[], by simp [addBuiltintText, hf]⟩
  | none => exact ⟨_, (addBuiltintText_fresh c t hf).2⟩

theorem internAll_extends : ∀ (texts : List String) (c : CompiledTemplatesProgram),
    ∃ ext, (internAll c texts).builtinTexts = c.builtinTexts ++ ext := by
  intro texts
  induction texts with
  | nil => intro c; exact ⟨[], (List.append_nil _).symm⟩
  | cons t ts ih =>
    intro c
    obtain ⟨ext1, h1⟩ := addBuiltintText_extends c t
    obtain ⟨ext2, h2⟩ := ih (addBuiltintText c t).2
    exact ⟨ext1 ++ ext2, by
      show (internAll (addBuiltintText c t).2 ts).builtinTexts = _
      rw [h2, h1, List.append_assoc]⟩

theorem find?_append_some {α : Type} {l1 l2 : List α} {p : α → Bool} {x : α}
    (h : l1.find? p = some x) : (l1 ++ l2).find? p = some x := by
  rw [List.find?_append, h]
  rfl

theorem addBuiltintText_find_after (c : CompiledTemplatesProgram) (text : String) :
    ∃ p, (addBuiltintText c text).2.builtinTexts.find? (fun q => q.1 = text) = some p ∧
      p.2 = (addBuiltintText c text).1 := by
  cases hf : c.builtinTexts.find? (fun q => q.1 = text) with
  | some p =>
    obtain ⟨h1, h2⟩ := addBuiltintText_seen c text p hf
    exact ⟨p, by rw [h2]; exact hf, h1.symm⟩
  | none =>
    obtain ⟨h1, h2⟩ := addBuiltintText_fresh c text hf
    refine ⟨(text, "builtin" ++ natRepr c.builtinTexts.length), ?_, by rw [h1]⟩
    rw [h2, List.find?_append, hf]
    simp

theorem loadFiles_error_shape (env : CompileEnv) :
    ∀ (paths : List String) (t : TemplateToCompile) (e : CompileError),
      loadFiles env t paths = .error e → ∃ p m, e = .fileLoad p m := by
  intro paths
  induction paths with
  | nil =>
    intro t e h
    exact absurd h (by simp [loadFiles])
  | cons p ps ih =>
    intro t e h
    unfold loadFiles at h
    cases hl : env.loadFile p t.conf with
    | error e2 =>
      rw [hl] at h
      exact ⟨p, e2, (Except.error.injEq _ _).mp h.symm⟩
    | ok f =>
      rw [hl] at h
      exact ih _ e h

theorem tplFold_collect : ∀ (l : List ParsedTemplate) (acc : List (String × Tree)),
    l.foldl (fun acc tpl => match tpl.tree with
      | some tr => acc ++ [(tpl.name, tr)]
      | none => acc) acc
      = acc ++ l.filterMap (fun tpl => tpl.tree.map (fun tr => (tpl.name, tr))) := by
  intro l
  induction l with
  | nil => intro acc; simp
  | cons a t ihc =>
    intro acc
    cases ha : a.tree with
    | none => simp [List.foldl_cons, ha, List.filterMap_cons, ihc]
    | some tr => simp [List.foldl_cons, ha, List.filterMap_cons, ihc]

/-! ### Claim theorems -/

/-- C1: evaluation of the convertTemplates naming steps at a failing input.
The claim asserts that generated function names as they appear in the
artifact (after snakeToCamel) are pairwise distinct; but makeFuncName
reserves the name before case normalization, so the two units a_b.tpl and
aB.tpl (provisional identifiers fna_b_tpl and fnaB_tpl, both reserved
collision-free) are both normalized to the same artifact identifier
fnaBTpl: the generated unit declares two functions of the same name. -/
theorem convertTemplates_duplicate_generated_names :
    (convertTemplates ⟨fun _ _ _ c => Except.ok c⟩ (NewCompiledTemplatesProgram "tpls")
      [⟨⟨"*.tpl", false⟩,
        [⟨"a_b.tpl", [("a_b.tpl", ⟨0⟩)], [("a_b.tpl", cleanTplName ("fn" ++ "a_b.tpl"))],
          [("a_b.tpl", ⟨0⟩)], []⟩,
         ⟨"aB.tpl", [("aB.tpl", ⟨1⟩)], [("aB.tpl", cleanTplName ("fn" ++ "aB.tpl"))],
          [("aB.tpl", ⟨1⟩)], []⟩]⟩]).toOption.map
      (fun r => r.2.flatMap (fun t => t.files.flatMap (fun f => f.tplsFunc.map (fun q => q.2))))
      = some ["fnaBTpl", "fnaBTpl"] := by
  decide

/-- C2: the output artifact is not a function of the compile request alone.
generateProgram ranges over the builtinTexts map to emit the literal
constants; delivering the same two-entry table in the two orders a Go map
range may use yields different artifact bytes, so two runs over an
identical Configuration need not produce byte-identical output. -/
theorem generateProgram_depends_on_map_order :
    (internAll (NewCompiledTemplatesProgram "tpls") ["a", "b"]).builtinTexts.reverse.Perm
        (internAll (NewCompiledTemplatesProgram "tpls") ["a", "b"]).builtinTexts ∧
    generateProgram (internAll (NewCompiledTemplatesProgram "tpls") ["a", "b"]) "gen" []
        (internAll (NewCompiledTemplatesProgram "tpls") ["a", "b"]).builtinTexts
      ≠ generateProgram (internAll (NewCompiledTemplatesProgram "tpls") ["a", "b"]) "gen" []
        (internAll (NewCompiledTemplatesProgram "tpls") ["a", "b"]).builtinTexts.reverse := by
  decide

/-- C3: the literal table interns by byte equality.  A first call with an
unseen byte sequence returns builtinN for the current table size N and
appends the binding; a later call with the same bytes, after arbitrary
interleaved interning, returns the original constant name and leaves the
state unchanged; and within one compile request (starting from the fresh
program state) distinct byte sequences always hold distinct constant
names. -/
theorem addBuiltintText_spec :
    (∀ (c : CompiledTemplatesProgram) (text : String),
        c.builtinTexts.find? (fun p => p.1 = text) = none →
          (addBuiltintText c text).1 = "builtin" ++ natRepr c.builtinTexts.length ∧
          (addBuiltintText c text).2.builtinTexts
            = c.builtinTexts ++ [(text, (addBuiltintText c text).1)]) ∧
    (∀ (c : CompiledTemplatesProgram) (text : String) (texts : List String),
        addBuiltintText (internAll (addBuiltintText c text).2 texts) text
          = ((addBuiltintText c text).1, internAll (addBuiltintText c text).2 texts)) ∧
    (∀ (varName : String) (texts : List String),
        ∀ p ∈ (internAll (NewCompiledTemplatesProgram varName) texts).builtinTexts,
          ∀ q ∈ (internAll (NewCompiledTemplatesProgram varName) texts).builtinTexts,
            p.1 ≠ q.1 → p.2 ≠ q.2) := by
  refine ⟨?_, ?_, ?_⟩
  · intro c text hf
    obtain ⟨h1, h2⟩ := addBuiltintText_fresh c text hf
    exact ⟨h1, by rw [h2, h1]⟩
  · intro c text texts
    obtain ⟨p, hfind, hp2⟩ := addBuiltintText_find_after c text
    obtain ⟨ext, hext⟩ := internAll_extends texts (addBuiltintText c text).2
    have hf2 : (internAll (addBuiltintText c text).2 texts).builtinTexts.find?
        (fun q => q.1 = text) = some p := by
      rw [hext]
      exact find?_append_some hfind
    obtain ⟨h1, h2⟩ := addBuiltintText_seen _ text p hf2
    exact Prod.ext (by rw [h1, hp2]) h2
  · intro varName texts
    have h0 : builtinTableOk (NewCompiledTemplatesProgram varName).builtinTexts := by
      rw [NewCompiledTemplatesProgram_builtinTexts]
      intro i h
      simp at h
    exact tableOk_distinct_values _ (internAll_tableOk texts _ h0)

/-- C3 witness: the hypotheses of addBuiltintText_spec hold at a concrete
run and the theorem evaluates there. -/
theorem addBuiltintText_spec_witness :
    (NewCompiledTemplatesProgram "tpls").builtinTexts.find? (fun p => p.1 = "hi") = none ∧
    (addBuiltintText (NewCompiledTemplatesProgram "tpls") "hi").1
      = "builtin" ++ natRepr (NewCompiledTemplatesProgram "tpls").builtinTexts.length ∧
    addBuiltintText (internAll (addBuiltintText (NewCompiledTemplatesProgram "tpls") "hi").2
        ["x"]) "hi"
      = ((addBuiltintText (NewCompiledTemplatesProgram "tpls") "hi").1,
         internAll (addBuiltintText (NewCompiledTemplatesProgram "tpls") "hi").2 ["x"]) :=
  ⟨by decide,
   (addBuiltintText_spec.1 (NewCompiledTemplatesProgram "tpls") "hi" (by decide)).1,
   addBuiltintText_spec.2.1 (NewCompiledTemplatesProgram "tpls") "hi" ["x"]⟩

/-- C4: the generated init routine consists of the registration statements
(first, one per unit and name) followed by the attachment rebinding blocks;
and executing one attachment block fetches the main and nested entries,
overwrites the main slot with the attached variant when the entry-level
Compiled succeeds, and leaves the previously registered entry in the main
slot when it fails (the error is discarded). -/
theorem generateInitFunc_registration_before_attachment :
    ∀ (c : CompiledTemplatesProgram) (tpls : List TemplateToCompile)
      (ok : Entry → Entry → Bool) (r : Registry) (i e : Nat) (m n : String),
      generateInitFunc c tpls
        = "func init () \x7b\n"
          ++ concatAll ((initAddStmts tpls ++ initAttachStmts tpls).map
              (renderInitStmt c.varName)) ++ "\x7d" ∧
      (∀ s ∈ initAddStmts tpls, ∃ nm f, s = InitStmt.add nm f) ∧
      (∀ s ∈ initAttachStmts tpls, ∃ i2 e2 m2 n2, s = InitStmt.attach i2 e2 m2 n2) ∧
      (registryMustGet (execInitStmt ok r (InitStmt.add m n)) m = Entry.fn n) ∧
      (registryMustGet (execInitStmt ok r (InitStmt.attach i e m n)) m
        = if ok (registryMustGet r m) (registryMustGet r n) then
            Entry.attached (registryMustGet r m) (registryMustGet r n)
          else registryMustGet r m) := by
  intro c tpls ok r i e m n
  refine ⟨generateInitFunc_eq c tpls, ?_, ?_, execInitStmt_add ok r m n,
    execInitStmt_attach ok r i e m n⟩
  · intro s hs
    simp only [initAddStmts, List.mem_flatMap, List.mem_map] at hs
    obtain ⟨t, _, f, _, name, _, rfl⟩ := hs
    exact ⟨name, _, rfl⟩
  · intro s hs
    simp only [initAttachStmts, List.mem_flatMap, List.mem_map] at hs
    obtain ⟨t, _, p, _, q, _, rfl⟩ := hs
    exact ⟨p.1, q.1, p.2.name, q.2, rfl⟩

/-- C4 witness: a failed attachment at a concrete two-entry registry keeps
the previously registered main entry in place. -/
theorem generateInitFunc_registration_before_attachment_witness :
    registryMustGet (execInitStmt (fun _ _ => false)
      [("f.tpl", Entry.fn "fnfTpl"), ("embed", Entry.fn "fnfTplEmbed")]
      (InitStmt.attach 0 0 "f.tpl" "embed")) "f.tpl" = Entry.fn "fnfTpl" := by
  have h := (generateInitFunc_registration_before_attachment
    (NewCompiledTemplatesProgram "tpls") [] (fun _ _ => false)
    [("f.tpl", Entry.fn "fnfTpl"), ("embed", Entry.fn "fnfTplEmbed")]
    0 0 "f.tpl" "embed").2.2.2.2
  rw [h]
  decide

/-- C5: the literal constant declarations are not guaranteed to appear in
first-seen insertion order.  generateBuiltins ranges over the Go map; on
the two-entry table built by interning a then b, the reversed delivery
order (a legal map range order, a permutation of the table) produces a
different declaration sequence than insertion order. -/
theorem generateBuiltins_not_insertion_order :
    (internAll (NewCompiledTemplatesProgram "tpls") ["a", "b"]).builtinTexts.reverse.Perm
        (internAll (NewCompiledTemplatesProgram "tpls") ["a", "b"]).builtinTexts ∧
    generateBuiltinsWith
        (internAll (NewCompiledTemplatesProgram "tpls") ["a", "b"]).builtinTexts.reverse
      ≠ generateBuiltinsWith
        (internAll (NewCompiledTemplatesProgram "tpls") ["a", "b"]).builtinTexts := by
  decide

/-- C6 counterexample: after importing a/io (alias aliasio), importing the
new path b/io derives the colliding base io, prefixes the marker and
returns aliasio without re-checking — which equals the already existing
alias of an import, refuting the claim that the returned alias never collides
with an existing alias or reserved identifier. -/
theorem addImport_alias_collision_counterexample :
    (addImport (addImport (NewCompiledTemplatesProgram "tpls") "a/io").2 "b/io").1
        = "aliasio" ∧
    isCollidingIdent (addImport (NewCompiledTemplatesProgram "tpls") "a/io").2
        "aliasio" = true := by
  decide

/-- C6 amended: reserveImport is idempotent (a second call with the same
path returns the first alias and changes nothing), and a new path whose
derived last-segment alias collides is returned with the fixed alias
prefix; no re-check is performed, so the prefixed result may itself
collide with an existing alias or reserved identifier. -/
theorem addImport_idempotent_and_marker :
    ∀ (c : CompiledTemplatesProgram) (p : String),
      (addImport (addImport c p).2 p = ((addImport c p).1, (addImport c p).2)) ∧
      (c.imports.find? (fun i => i.pathValue = goQuote p) = none →
        isCollidingIdent c (filepathBase p) = true →
        (addImport c p).1 = "alias" ++ filepathBase p) :=
  fun c p => ⟨addImport_idempotent c p, addImport_collision_marker c p⟩

/-- C6 witness: the hypotheses of addImport_idempotent_and_marker hold at
the fresh program state and the path a/io, and the theorem evaluates
there. -/
theorem addImport_idempotent_and_marker_witness :
    (NewCompiledTemplatesProgram "tpls").imports.find?
        (fun i => i.pathValue = goQuote "a/io") = none ∧
    isCollidingIdent (NewCompiledTemplatesProgram "tpls") (filepathBase "a/io") = true ∧
    (addImport (NewCompiledTemplatesProgram "tpls") "a/io").1
        = "alias" ++ filepathBase "a/io" ∧
    addImport (addImport (NewCompiledTemplatesProgram "tpls") "a/io").2 "a/io"
      = ((addImport (NewCompiledTemplatesProgram "tpls") "a/io").1,
         (addImport (NewCompiledTemplatesProgram "tpls") "a/io").2) :=
  ⟨by decide, by decide,
   (addImport_idempotent_and_marker (NewCompiledTemplatesProgram "tpls") "a/io").2
     (by decide) (by decide),
   (addImport_idempotent_and_marker (NewCompiledTemplatesProgram "tpls") "a/io").1⟩

/-- C7: makeFuncName returns the base name itself when it does not collide,
and in general returns the first candidate of the deterministic probe
sequence base, fn0base, fn1base, ... that collides with no reserved
identifier, import alias or previously allocated name; the winner is
appended to the reserved identifier list. -/
theorem makeFuncName_spec :
    ∀ (c : CompiledTemplatesProgram) (baseName : String),
      (isCollidingIdent c baseName = false →
        makeFuncName c baseName
          = (baseName, { c with idents := c.idents ++ [baseName] })) ∧
      (∃ k, isCollidingIdent c (funcNameCandidate baseName k) = false ∧
        (∀ j < k, isCollidingIdent c (funcNameCandidate baseName j) = true) ∧
        makeFuncName c baseName = (funcNameCandidate baseName k,
          { c with idents := c.idents ++ [funcNameCandidate baseName k] })) := by
  intro c b
  obtain ⟨k, hk, hmin, heq⟩ := makeFuncName_eq c b
  constructor
  · intro hb
    have hk0 : k = 0 := by
      by_contra hne
      have h1 := hmin 0 (Nat.pos_of_ne_zero hne)
      rw [show funcNameCandidate b 0 = b from rfl, hb] at h1
      exact Bool.false_ne_true h1
    subst hk0
    exact heq
  · exact ⟨k, hk, hmin, heq⟩

/-- C7 witness: allocating a name equal to the reserved identifier t
resolves to the first collision-free probe candidate fn0t and reserves it;
a non-colliding base is returned unchanged. -/
theorem makeFuncName_spec_witness :
    isCollidingIdent (NewCompiledTemplatesProgram "tpls") "foo" = false ∧
    makeFuncName (NewCompiledTemplatesProgram "tpls") "foo"
      = ("foo", { NewCompiledTemplatesProgram "tpls" with
          idents := (NewCompiledTemplatesProgram "tpls").idents ++ ["foo"] }) :=
  ⟨by decide,
   (makeFuncName_spec (NewCompiledTemplatesProgram "tpls") "foo").1 (by decide)⟩

/-- C8: expanding a template entry's file glob produces a discovery error
exactly when the glob call itself fails (which filepath.Glob does only for
a malformed pattern); a successful glob matching zero files leaves the
entry prepared with an empty work-unit list and no error. -/
theorem prepare_discovery_iff_glob_error :
    ∀ (env : CompileEnv) (conf : TemplateConfiguration),
      (∀ e, env.glob conf.templatesPath = .error e →
        prepare env (makeTemplateToCompileNew conf)
          = .error (.discovery conf.templatesPath e)) ∧
      (∀ pat msg, prepare env (makeTemplateToCompileNew conf)
          = .error (.discovery pat msg) →
        pat = conf.templatesPath ∧ env.glob conf.templatesPath = .error msg) ∧
      (env.glob conf.templatesPath = .ok [] →
        prepare env (makeTemplateToCompileNew conf) = .ok (makeTemplateToCompileNew conf)
          ∧ (makeTemplateToCompileNew conf).files = []) := by
  intro env conf
  refine ⟨?_, ?_, ?_⟩
  · intro e he
    simp [prepare, makeTemplateToCompileNew, he]
  · intro pat msg h
    cases hg : env.glob (makeTemplateToCompileNew conf).conf.templatesPath with
    | error e =>
      rw [prepare, hg] at h
      have h2 := (Except.error.injEq _ _).mp h
      have h3 : (makeTemplateToCompileNew conf).conf.templatesPath = pat ∧ e = msg := by
        cases h2
        exact ⟨rfl, rfl⟩
      exact ⟨h3.1.symm, by rw [← h3.2]; exact hg⟩
    | ok paths =>
      rw [prepare, hg] at h
      obtain ⟨p, m, hshape⟩ := loadFiles_error_shape env paths _ _ h
      cases hshape
  · intro hg
    refine ⟨?_, rfl⟩
    have hg2 : env.glob (makeTemplateToCompileNew conf).conf.templatesPath
        = Except.ok [] := hg
    rw [prepare, hg2]
    rfl

/-- C8 witness: a failing glob on a concrete environment yields the
discovery error, and an empty match list yields success with no units. -/
theorem prepare_discovery_iff_glob_error_witness :
    prepare
      { lookupPackageName := fun _ => Except.error ""
        glob := fun _ => Except.error "syntax error in pattern"
        loadFile := fun _ _ => Except.error ""
        convert := ⟨fun _ _ _ c => Except.ok c⟩
        mapRange := id
        writeFile := fun _ _ => Except.ok () }
      (makeTemplateToCompileNew ⟨"[x", false⟩)
      = Except.error (CompileError.discovery "[x" "syntax error in pattern") ∧
    prepare
      { lookupPackageName := fun _ => Except.error ""
        glob := fun _ => Except.ok []
        loadFile := fun _ _ => Except.error ""
        convert := ⟨fun _ _ _ c => Except.ok c⟩
        mapRange := id
        writeFile := fun _ _ => Except.ok () }
      (makeTemplateToCompileNew ⟨"*.tpl", false⟩)
      = Except.ok (makeTemplateToCompileNew ⟨"*.tpl", false⟩) :=
  ⟨(prepare_discovery_iff_glob_error _ ⟨"[x", false⟩).1 "syntax error in pattern" rfl,
   ((prepare_discovery_iff_glob_error _ ⟨"*.tpl", false⟩).2.2 rfl).1⟩

/-- C9: when the external parser accepts the content, template loading
keeps exactly the named templates whose post-probe tree is set: a name
with an unset tree is omitted from the unit's tree map without error,
every retained name maps to the tree the parser produced for it, and the
loading step fails only when the parser itself rejects the content.  Both
dialect wrappers behave identically. -/
theorem compileTemplate_drops_empty_trees :
    ∀ (l : List ParsedTemplate), (l.map (fun t => t.name)).Nodup →
      compileTextTemplate (.ok l)
          = .ok (l.filterMap (fun tpl => tpl.tree.map (fun tr => (tpl.name, tr)))) ∧
      compileHTMLTemplate (.ok l)
          = .ok (l.filterMap (fun tpl => tpl.tree.map (fun tr => (tpl.name, tr)))) ∧
      (∀ p ∈ l, p.tree = none → ∀ v,
        (p.name, v) ∉ l.filterMap (fun tpl => tpl.tree.map (fun tr => (tpl.name, tr)))) ∧
      (∀ nv ∈ l.filterMap (fun tpl => tpl.tree.map (fun tr => (tpl.name, tr))),
        (⟨nv.1, some nv.2⟩ : ParsedTemplate) ∈ l) ∧
      (∀ e, compileTextTemplate (Except.error e) = Except.error e ∧
            compileHTMLTemplate (Except.error e) = Except.error e) := by
  intro l hnd
  refine ⟨?_, ?_, ?_, ?_, ?_⟩
  · simp only [compileTextTemplate]
    rw [tplFold_collect l []]
    rfl
  · simp only [compileHTMLTemplate]
    rw [tplFold_collect l []]
    rfl
  · intro p hp hnone v hmem
    simp only [List.mem_filterMap, Option.map_eq_some'] at hmem
    obtain ⟨q, hq, tr, htr, heq⟩ := hmem
    have hname : q.name = p.name := (Prod.mk.injEq _ _ _ _).mp heq |>.1
    have hqp : q = p := List.inj_on_of_nodup_map hnd hq hp hname
    rw [hqp, hnone] at htr
    cases htr
  · intro nv hmem
    simp only [List.mem_filterMap, Option.map_eq_some'] at hmem
    obtain ⟨q, hq, tr, htr, heq⟩ := hmem
    have h1 : q.name = nv.1 := (Prod.mk.injEq _ _ _ _).mp heq |>.1
    have h2 : tr = nv.2 := (Prod.mk.injEq _ _ _ _).mp heq |>.2
    have : q = ⟨nv.1, some nv.2⟩ := by
      cases q
      simp_all
    rw [← this]
    exact hq
  · intro e
    exact ⟨rfl, rfl⟩

/-- C9 witness: with a parser outcome declaring a main template with a set
tree and a nested name whose post-probe tree is unset, loading succeeds
and keeps only the main entry. -/
theorem compileTemplate_drops_empty_trees_witness :
    compileTextTemplate (Except.ok [⟨"a.tpl", some ⟨0⟩⟩, ⟨"embed", none⟩])
      = Except.ok [("a.tpl", (⟨0⟩ : Tree))] :=
  ((compileTemplate_drops_empty_trees
    [⟨"a.tpl", some ⟨0⟩⟩, ⟨"embed", none⟩] (by decide)).1).trans
    (congrArg Except.ok (by decide))

/-- C10: CompileAndWrite writes nothing when any compile stage fails — the
stage's error is returned with an empty write log — and anything it does
write is exactly the finished artifact at the configured output path. -/
theorem compileAndWrite_no_partial_write :
    ∀ (c : CompiledTemplatesProgram) (env : CompileEnv) (config : Configuration),
      (∀ e, Compile c env config = .error e →
        CompileAndWrite c env config = (.error e, [])) ∧
      (∀ path content, (path, content) ∈ (CompileAndWrite c env config).2 →
        path = config.outPath ∧ Compile c env config = .ok content) := by
  intro c env config
  constructor
  · intro e he
    simp [CompileAndWrite, he]
  · intro path content hmem
    unfold CompileAndWrite at hmem
    cases hc : Compile c env config with
    | error e =>
      rw [hc] at hmem
      simp at hmem
    | ok program =>
      rw [hc] at hmem
      cases hw : env.writeFile config.outPath program with
      | error e2 =>
        simp [hw] at hmem
        exact ⟨hmem.1, by rw [hmem.2]⟩
      | ok u =>
        simp [hw] at hmem
        exact ⟨hmem.1, by rw [hmem.2]⟩

/-- C10 witness: with a failing package lookup on a concrete environment,
CompileAndWrite returns the lookup error and the write log is empty. -/
theorem compileAndWrite_no_partial_write_witness :
    CompileAndWrite (NewCompiledTemplatesProgram "tpls")
      { lookupPackageName := fun _ => Except.error "no go files"
        glob := fun _ => Except.ok []
        loadFile := fun _ _ => Except.error ""
        convert := ⟨fun _ _ _ c => Except.ok c⟩
        mapRange := id
        writeFile := fun _ _ => Except.ok () }
      { outPath := "gen/a.go", outPkg := "", templates := [] }
      = (Except.error (CompileError.packageLookup "no go files"), []) :=
  (compileAndWrite_no_partial_write (NewCompiledTemplatesProgram "tpls") _ _).1
    (CompileError.packageLookup "no go files") rfl

end TC

